import Mathlib

/-!
Verification of the cloudfrunt CDN-takeover scanner (MaxCDNfrunt.py and
fastlyfrunt.py).

The two scripts share one pipeline: fetch the provider's IP ranges,
expand each seed domain via DNS enumeration, keep the domains whose
resolved addresses fall inside the provider's CIDR ranges, and probe the
survivors over HTTP for the provider-specific misconfiguration
signature.

Shallow embedding conventions:
* IPv4 addresses are natural numbers below 2^32; a CIDR range string is
  kept as a string (the scripts store the raw strings and re-parse each
  one with netaddr's IPNetwork inside the membership loop); parsing is
  modelled by parseCidr and membership by cidrContains, mirroring
  netaddr's shifted-comparison containment test.
* DNS resolution (socket.gethostbyname_ex, whose failure the scripts
  turn into an empty address list) is a function parameter
  resolve : String → List Nat giving the resolved address list.
* The HTTP probe outcome of urlopen is the inductive HttpResult:
  success carries the read body, httpError carries the HTTPError's code
  and body, otherError covers every other exception (caught and
  skipped by the scripts).
* A raised netaddr AddrFormatError (malformed range string) is the
  Except.error case; all plain returns are Except.ok.
* Python str operations are modelled structurally over the character
  lists of Lean strings (pyIn for the `in` operator, pyEndsWith for
  str.endswith, pyLower for str.lower on ASCII), so every definition
  evaluates inside the kernel.
-/

/-- Does the first character list begin the second one. -/
def listStarts : List Char → List Char → Bool
  | [], _ => true
  | _ :: _, [] => false
  | a :: as, b :: bs => a == b && listStarts as bs

/-- Does the needle occur contiguously anywhere in the haystack. -/
def listHasSub (needle : List Char) : List Char → Bool
  | [] => listStarts needle []
  | c :: cs => listStarts needle (c :: cs) || listHasSub needle cs

/-- Python's substring test `needle in hay`. -/
def pyIn (needle hay : String) : Bool :=
  listHasSub needle.toList hay.toList

/-- Python's `s.endswith(ending)`. -/
def pyEndsWith (s ending : String) : Bool :=
  listStarts ending.toList.reverse s.toList.reverse

/-- Python's `s.lower()` restricted to ASCII, the alphabet of domain names. -/
def pyLower (s : String) : String :=
  String.mk (s.data.map Char.toLower)

/-- Accumulating decimal parser over a digit list. -/
def digitsToNatAux : List Char → Nat → Option Nat
  | [], acc => some acc
  | c :: cs, acc =>
    if c.isDigit then digitsToNatAux cs (acc * 10 + (c.toNat - 48))
    else none

/-- Parse a non-empty all-digit string as a natural number, like Python's int. -/
def parseDecimal : List Char → Option Nat
  | [] => none
  | c :: cs => digitsToNatAux (c :: cs) 0

/-- Split a character list on a separator character, like str.split(sep). -/
def splitOnChar (sep : Char) : List Char → List (List Char)
  | [] => [[]]
  | c :: cs =>
    let r := splitOnChar sep cs
    if c == sep then [] :: r
    else
      match r with
      | [] => [[c]]
      | g :: gs => (c :: g) :: gs

/-- A parsed CIDR block: base address value and mask length, the data
netaddr's IPNetwork extracts from a range string. -/
structure Cidr where
  addr : Nat
  plen : Nat
deriving DecidableEq

/-- One dotted-quad octet: decimal and at most 255. -/
def parseOctet (s : List Char) : Option Nat :=
  match parseDecimal s with
  | some n => if n ≤ 255 then some n else none
  | none => none

/-- A dotted-quad IPv4 address as its integer value. -/
def parseIPv4 (s : List Char) : Option Nat :=
  match (splitOnChar '.' s).map parseOctet with
  | [some a, some b, some c, some d] => some (((a * 256 + b) * 256 + c) * 256 + d)
  | _ => none

/-- netaddr IPNetwork parsing of a range string: either a bare address
(an implicit /32) or address/masklength with the mask at most 32.
Returns none where IPNetwork raises AddrFormatError. -/
def parseCidr (s : String) : Option Cidr :=
  match splitOnChar '/' s.toList with
  | [a] => (parseIPv4 a).map (fun ip => ⟨ip, 32⟩)
  | [a, p] =>
    match parseIPv4 a, parseDecimal p with
    | some ip, some n => if n ≤ 32 then some ⟨ip, n⟩ else none
    | _, _ => none
  | _ => none

/-- netaddr's `ip in ip_network` containment test: the address and the
network base agree on every bit above the host part, i.e. their
quotients by 2^(32 - masklength) coincide. -/
def cidrContains (ip : Nat) (c : Cidr) : Bool :=
  ip / 2 ^ (32 - c.plen) == c.addr / 2 ^ (32 - c.plen)

/-- Modelled from the spec: the network (lowest) address of a CIDR block. -/
def networkAddr (c : Cidr) : Nat :=
  c.addr / 2 ^ (32 - c.plen) * 2 ^ (32 - c.plen)

/-- Modelled from the spec: the broadcast (highest) address of a CIDR block. -/
def broadcastAddr (c : Cidr) : Nat :=
  networkAddr c + (2 ^ (32 - c.plen) - 1)

/-- The inner loop of get_maxcdn_domain / get_fastly_domain: scan the
range strings for one resolved address, re-parsing each string with
IPNetwork (raising on a malformed one) and returning true on the first
containment hit. -/
def checkIp (ip : Nat) : List String → Except String Bool
  | [] => .ok false
  | r :: rest =>
    match parseCidr r with
    | none => .error r
    | some c => if cidrContains ip c then .ok true else checkIp ip rest

/-- The outer loop: try every resolved address against the whole range list. -/
def checkIps (ranges : List String) : List Nat → Except String Bool
  | [] => .ok false
  | ip :: rest =>
    match checkIp ip ranges with
    | .error e => .error e
    | .ok true => .ok true
    | .ok false => checkIps ranges rest

/-- Common body of get_maxcdn_domain and get_fastly_domain: immediately
reject a domain carrying the provider's own edge suffix, otherwise
resolve it (resolution failure yields the empty address list) and scan
the ranges. -/
def cdnDomainCheck (edgeSuffix : String) (resolve : String → List Nat)
    (domain : String) (ranges : List String) : Except String Bool :=
  if pyEndsWith domain edgeSuffix then .ok false
  else checkIps ranges (resolve domain)

/-- One dnsrecon output record; only its (possibly absent) name field is read. -/
structure DnsRecord where
  name : Option String

/-- The url_list loop of recon_target: keep a record's name when it is
truthy, not already collected (compared against the accumulated
lowercased entries under its original spelling), and provider-fronted;
the appended entry is the lowercased name. -/
def cdnBuildUrlList (edgeSuffix : String) (resolve : String → List Nat)
    (ranges : List String) : List DnsRecord → List String → Except String (List String)
  | [], url_list => .ok url_list
  | record :: rest, url_list =>
    match record.name with
    | none => cdnBuildUrlList edgeSuffix resolve ranges rest url_list
    | some nm =>
      if nm == "" then cdnBuildUrlList edgeSuffix resolve ranges rest url_list
      else if url_list.any (fun u => u == nm) then
        cdnBuildUrlList edgeSuffix resolve ranges rest url_list
      else
        match cdnDomainCheck edgeSuffix resolve nm ranges with
        | .error e => .error e
        | .ok true => cdnBuildUrlList edgeSuffix resolve ranges rest (url_list ++ [pyLower nm])
        | .ok false => cdnBuildUrlList edgeSuffix resolve ranges rest url_list

/-- Common body of the two recon_target functions. dns_records is the
list loaded from dnsrecon's JSON output; a failed enumeration or load
leaves it empty. With no_dns set, or when more than 1000 records came
back (the wildcard-domain safeguard), only the seed itself is tested. -/
def cdnReconTarget (edgeSuffix : String) (resolve : String → List Nat)
    (domain : String) (ranges : List String) (no_dns : Bool)
    (dns_records : List DnsRecord) : Except String (List String) :=
  if no_dns then
    match cdnDomainCheck edgeSuffix resolve domain ranges with
    | .error e => .error e
    | .ok b => .ok (if b then [domain] else [])
  else if 1000 < dns_records.length then
    match cdnDomainCheck edgeSuffix resolve domain ranges with
    | .error e => .error e
    | .ok b => .ok (if b then [domain] else [])
  else
    cdnBuildUrlList edgeSuffix resolve ranges dns_records []

/-- Outcome of urlopen on one probed domain. -/
inductive HttpResult where
  | success (body : String)
  | httpError (code : Nat) (body : String)
  | otherError
deriving DecidableEq

/-- Per-domain decision of find_maxcdn_issues: a completed response is
flagged when its body contains the StackPath marker; an HTTPError is
flagged when its code equals 200 and its body contains the marker; any
other exception is skipped. -/
def maxcdnVulnerable : HttpResult → Bool
  | .success respData => pyIn "StackPath" respData
  | .httpError code body => code == 200 && pyIn "StackPath" body
  | .otherError => false

/-- Per-domain decision of find_fastly_issues: a completed response is
never flagged; an HTTPError is flagged when its code equals 500 and its
body contains the unknown-domain marker; any other exception is skipped. -/
def fastlyVulnerable : HttpResult → Bool
  | .success _ => false
  | .httpError code body => code == 500 && pyIn "unknown domain" body
  | .otherError => false

/-- The error_domains accumulation loop shared by both probe functions. -/
def findIssuesLoop (vuln : HttpResult → Bool) (resp : String → HttpResult) :
    List String → List String → List String
  | [], error_domains => error_domains
  | domain :: rest, error_domains =>
    if vuln (resp domain) then findIssuesLoop vuln resp rest (error_domains ++ [domain])
    else findIssuesLoop vuln resp rest error_domains

/-- Python's list(set(l)) on strings: one representative per distinct
string, here in first-occurrence order (set iteration order is
unspecified; every property proved about it is order-insensitive). -/
def pySetAux : List String → List String → List String
  | [], _ => []
  | x :: xs, seen =>
    if seen.any (fun y => y == x) then pySetAux xs seen
    else x :: pySetAux xs (x :: seen)

/-- The target-list normalisation of both main functions:
`target_list = [target.lower() for target in list(set(target_list))]`. -/
def processTargets (target_list : List String) : List String :=
  (pySetAux target_list []).map pyLower

namespace MaxCDN

/-- get_maxcdn_ranges after a successful fetch: append every line of the
payload to the ranges list, with no emptiness check. -/
def get_maxcdn_ranges (payload : List String) : List String :=
  payload.foldl (fun ranges item => ranges ++ [item]) []

/-- get_maxcdn_domain from MaxCDNfrunt.py. -/
def get_maxcdn_domain : (String → List Nat) → String → List String → Except String Bool :=
  cdnDomainCheck "netdna-cdn.com"

/-- recon_target from MaxCDNfrunt.py. -/
def recon_target : (String → List Nat) → String → List String → Bool →
    List DnsRecord → Except String (List String) :=
  cdnReconTarget "netdna-cdn.com"

/-- find_maxcdn_issues from MaxCDNfrunt.py. -/
def find_maxcdn_issues (resp : String → HttpResult) (domains : List String) : List String :=
  findIssuesLoop maxcdnVulnerable resp domains []

end MaxCDN

namespace Fastly

/-- get_fastly_ranges after a successful fetch and JSON parse: append
every entry of the payload's addresses array, with no emptiness check. -/
def get_fastly_ranges (addresses : List String) : List String :=
  addresses.foldl (fun ranges item => ranges ++ [item]) []

/-- get_fastly_domain from fastlyfrunt.py. -/
def get_fastly_domain : (String → List Nat) → String → List String → Except String Bool :=
  cdnDomainCheck "global.prod.fastly.net"

/-- recon_target from fastlyfrunt.py. -/
def recon_target : (String → List Nat) → String → List String → Bool →
    List DnsRecord → Except String (List String) :=
  cdnReconTarget "global.prod.fastly.net"

/-- find_fastly_issues from fastlyfrunt.py. -/
def find_fastly_issues (resp : String → HttpResult) (domains : List String) : List String :=
  findIssuesLoop fastlyVulnerable resp domains []

end Fastly

deriving instance DecidableEq for Except

/-- The probe loops append exactly the domains their classifier accepts. -/
theorem findIssuesLoop_eq_filter (vuln : HttpResult → Bool) (resp : String → HttpResult)
    (ds : List String) : ∀ acc : List String,
    findIssuesLoop vuln resp ds acc = acc ++ ds.filter (fun d => vuln (resp d)) := by
  induction ds with
  | nil => intro acc; simp [findIssuesLoop]
  | cons d rest ih =>
    intro acc
    cases h : vuln (resp d) with
    | true => simp [findIssuesLoop, h, ih, List.filter_cons]
    | false => simp [findIssuesLoop, h, ih, List.filter_cons]

/-- Claim C10: for every input list of domains, each probe's output is an
order-preserving sublist of its input: every reported domain occurs in the
probed input, at most once per input occurrence and in the same relative
order; the probe never fabricates or reorders domains. -/
theorem c10_probe_output_sublist (respA respB : String → HttpResult)
    (dsA dsB : List String) :
    (MaxCDN.find_maxcdn_issues respA dsA).Sublist dsA ∧
    (Fastly.find_fastly_issues respB dsB).Sublist dsB := by
  constructor
  · rw [MaxCDN.find_maxcdn_issues, findIssuesLoop_eq_filter, List.nil_append]
    exact List.filter_sublist _
  · rw [Fastly.find_fastly_issues, findIssuesLoop_eq_filter, List.nil_append]
    exact List.filter_sublist _

/-- Claim C3: the Fastly probe classifies a domain vulnerable exactly when
the HTTP response is the server-error status 500 with the unknown-domain
marker in its body; a success response is never vulnerable; and
find_fastly_issues keeps exactly the domains so classified. -/
theorem c3_fastly_probe_signature :
    (∀ r : HttpResult, fastlyVulnerable r = true ↔
      ∃ body, r = HttpResult.httpError 500 body ∧ pyIn "unknown domain" body = true) ∧
    (∀ body, fastlyVulnerable (HttpResult.success body) = false) ∧
    (∀ resp domains, Fastly.find_fastly_issues resp domains =
      domains.filter (fun d => fastlyVulnerable (resp d))) := by
  refine ⟨?_, fun _ => rfl, ?_⟩
  · intro r
    cases r with
    | success body => simp [fastlyVulnerable]
    | httpError code body =>
      simp only [fastlyVulnerable, Bool.and_eq_true, beq_iff_eq, HttpResult.httpError.injEq]
      constructor
      · rintro ⟨rfl, h⟩
        exact ⟨body, ⟨rfl, rfl⟩, h⟩
      · rintro ⟨b, ⟨rfl, rfl⟩, h⟩
        exact ⟨rfl, h⟩
    | otherError => simp [fastlyVulnerable]
  · intro resp domains
    rw [Fastly.find_fastly_issues, findIssuesLoop_eq_filter, List.nil_append]

/-- Claim C1 (code bug witnessed at the failing input): a success response
whose body carries the StackPath marker is classified vulnerable, but an
error-status response (here 404) whose body carries the same marker is
not, because the HTTPError branch demands a status code of exactly 200 —
a value urllib never delivers through HTTPError; consequently
find_maxcdn_issues drops such a domain. -/
theorem c1_maxcdn_error_branch_dead :
    maxcdnVulnerable (HttpResult.success "Welcome to StackPath hosting") = true ∧
    maxcdnVulnerable (HttpResult.httpError 404 "StackPath - bad request") = false ∧
    MaxCDN.find_maxcdn_issues (fun _ => HttpResult.httpError 404 "StackPath - bad request")
      ["sub.example.com"] = [] := by
  refine ⟨by decide, by decide, by decide⟩

/-- Division by a block size m places a number in the half-open block
[k * m, k * m + m - 1] exactly when its quotient is k. -/
theorem div_eq_iff_between (a k m : Nat) (hm : 0 < m) :
    a / m = k ↔ (k * m ≤ a ∧ a ≤ k * m + (m - 1)) := by
  constructor
  · rintro rfl
    refine ⟨Nat.div_mul_le_self a m, ?_⟩
    have h1 : a / m * m + a % m = a := Nat.div_add_mod' a m
    have h2 := Nat.mod_lt a hm
    omega
  · rintro ⟨h1, h2⟩
    have hs : (k + 1) * m = k * m + m := Nat.succ_mul k m
    exact Nat.div_eq_of_lt_le h1 (by omega)

/-- Claim C2: for every valid CIDR range string and every address, the
containment test used by the filter (netaddr's shifted comparison, run by
checkIp on the singleton range set) answers true exactly when the
address's integer value lies in the inclusive interval from the network
address to the broadcast address of the range. -/
theorem c2_cidr_membership (r : String) (c : Cidr) (a : Nat)
    (h : parseCidr r = some c) :
    (cidrContains a c = true ↔ networkAddr c ≤ a ∧ a ≤ broadcastAddr c) ∧
    (checkIp a [r] = .ok true ↔ networkAddr c ≤ a ∧ a ≤ broadcastAddr c) := by
  have hm : 0 < 2 ^ (32 - c.plen) := Nat.pow_pos (by norm_num)
  have key : cidrContains a c = true ↔ (networkAddr c ≤ a ∧ a ≤ broadcastAddr c) := by
    unfold cidrContains networkAddr broadcastAddr
    rw [beq_iff_eq]
    exact div_eq_iff_between a (c.addr / 2 ^ (32 - c.plen)) (2 ^ (32 - c.plen)) hm
  refine ⟨key, ?_⟩
  have hstep : checkIp a [r] = if cidrContains a c then Except.ok true else Except.ok false := by
    simp [checkIp, h]
  rw [hstep, ← key]
  cases hcc : cidrContains a c <;> simp [hcc]

/-- Witness for C2 at the spec's own scenario range 192.0.2.0/24 and
address 192.0.2.55. -/
theorem c2_witness :
    (parseCidr "192.0.2.0/24" = some ⟨3221225984, 24⟩) ∧
    (cidrContains 3221226039 ⟨3221225984, 24⟩ = true ↔
      networkAddr ⟨3221225984, 24⟩ ≤ 3221226039 ∧
        3221226039 ≤ broadcastAddr ⟨3221225984, 24⟩) :=
  ⟨by decide, (c2_cidr_membership "192.0.2.0/24" ⟨3221225984, 24⟩ 3221226039 (by decide)).1⟩

/-- With a malformed entry in the range list, the per-address scan can
match an earlier range or raise, but it can never report a clean miss. -/
theorem checkIp_no_false_of_malformed (ip : Nat) (r : String) (hr : parseCidr r = none) :
    ∀ ranges : List String, r ∈ ranges → checkIp ip ranges ≠ Except.ok false := by
  intro ranges
  induction ranges with
  | nil => intro hmem; cases hmem
  | cons r0 rest ih =>
    intro hmem
    rcases List.mem_cons.mp hmem with rfl | hmem2
    · simp [checkIp, hr]
    · simp only [checkIp]
      cases hp : parseCidr r0 with
      | none => simp
      | some c =>
        cases hcc : cidrContains ip c with
        | true => simp [hcc]
        | false => simpa [hcc] using ih hmem2

/-- Lifting the previous fact through the outer address loop: with at
least one resolved address and a malformed range entry in scope, the scan
ends in a hit or in a raised error. -/
theorem checkIps_malformed_cases (ranges : List String) (r : String)
    (hr : parseCidr r = none) (hmem : r ∈ ranges) (ip : Nat) (ips : List Nat) :
    checkIps ranges (ip :: ips) = .ok true ∨
      ∃ e, checkIps ranges (ip :: ips) = .error e := by
  simp only [checkIps]
  cases hc : checkIp ip ranges with
  | error e => exact Or.inr ⟨e, rfl⟩
  | ok b =>
    cases b with
    | true => exact Or.inl rfl
    | false => exact absurd hc (checkIp_no_false_of_malformed ip r hr ranges hmem)

/-- Claim C5 corrected: a malformed range string is not skipped. For a
domain outside the provider edge suffix that resolves to at least one
address, a range set containing an unparseable entry makes the membership
test either succeed on a range inspected before the bad entry or raise
the parse error out of the test; it never returns a boolean verdict based
on the remaining ranges. -/
theorem c5_amended_malformed_raises (resolve : String → List Nat)
    (dA dB r : String) (ranges : List String)
    (hr : parseCidr r = none) (hmem : r ∈ ranges)
    (hA : pyEndsWith dA "netdna-cdn.com" = false)
    (hB : pyEndsWith dB "global.prod.fastly.net" = false)
    (hipA : resolve dA ≠ []) (hipB : resolve dB ≠ []) :
    (MaxCDN.get_maxcdn_domain resolve dA ranges = .ok true ∨
      ∃ e, MaxCDN.get_maxcdn_domain resolve dA ranges = .error e) ∧
    (Fastly.get_fastly_domain resolve dB ranges = .ok true ∨
      ∃ e, Fastly.get_fastly_domain resolve dB ranges = .error e) := by
  constructor
  · rw [MaxCDN.get_maxcdn_domain, cdnDomainCheck, if_neg (by simp [hA])]
    rcases List.exists_cons_of_ne_nil hipA with ⟨ip, ips, hips⟩
    rw [hips]
    exact checkIps_malformed_cases ranges r hr hmem ip ips
  · rw [Fastly.get_fastly_domain, cdnDomainCheck, if_neg (by simp [hB])]
    rcases List.exists_cons_of_ne_nil hipB with ⟨ip, ips, hips⟩
    rw [hips]
    exact checkIps_malformed_cases ranges r hr hmem ip ips

/-- Counterexample to C5 as stated: the range set holds the malformed
entry "bogus" followed by a well-formed range that contains the resolved
address, yet the membership test raises on the malformed entry instead of
skipping it and answering from the remaining range. -/
theorem c5_counterexample :
    MaxCDN.get_maxcdn_domain (fun _ => [5]) "sub.example.com" ["bogus", "0.0.0.0/0"] =
      Except.error "bogus" := by decide

/-- Witness for the corrected C5 at a concrete malformed range set. -/
theorem c5_witness :
    (parseCidr "nonsense" = none) ∧
    ((MaxCDN.get_maxcdn_domain (fun _ => [7]) "b.example.com" ["nonsense"] = .ok true) ∨
      ∃ e, MaxCDN.get_maxcdn_domain (fun _ => [7]) "b.example.com" ["nonsense"] = .error e) :=
  ⟨by decide,
    (c5_amended_malformed_raises (fun _ => [7]) "b.example.com" "c.example.com" "nonsense"
      ["nonsense"] (by decide) (by decide) (by decide) (by decide) (by decide) (by decide)).1⟩

/-- Claim C7: a domain carrying the provider's canonical edge suffix is
rejected by the filter for every range set, and without any DNS
resolution attempt: the verdict is the same for every resolver and even
for range sets whose entries could not be parsed. -/
theorem c7_edge_suffix_excluded (dA dB : String)
    (hA : pyEndsWith dA "netdna-cdn.com" = true)
    (hB : pyEndsWith dB "global.prod.fastly.net" = true) :
    (∀ resolve ranges, MaxCDN.get_maxcdn_domain resolve dA ranges = .ok false) ∧
    (∀ resolve ranges, Fastly.get_fastly_domain resolve dB ranges = .ok false) := by
  constructor
  · intro resolve ranges
    rw [MaxCDN.get_maxcdn_domain, cdnDomainCheck, if_pos (by simp [hA])]
  · intro resolve ranges
    rw [Fastly.get_fastly_domain, cdnDomainCheck, if_pos (by simp [hB])]

/-- Witness for C7 at concrete edge hostnames and an unparseable range set. -/
theorem c7_witness :
    (pyEndsWith "foo.netdna-cdn.com" "netdna-cdn.com" = true) ∧
    (pyEndsWith "bar.global.prod.fastly.net" "global.prod.fastly.net" = true) ∧
    MaxCDN.get_maxcdn_domain (fun _ => [1]) "foo.netdna-cdn.com" ["bogus"] = .ok false ∧
    Fastly.get_fastly_domain (fun _ => [1]) "bar.global.prod.fastly.net" ["bogus"] = .ok false :=
  ⟨by decide, by decide,
    (c7_edge_suffix_excluded "foo.netdna-cdn.com" "bar.global.prod.fastly.net"
      (by decide) (by decide)).1 _ _,
    (c7_edge_suffix_excluded "foo.netdna-cdn.com" "bar.global.prod.fastly.net"
      (by decide) (by decide)).2 _ _⟩

/-- Claim C8: when DNS enumeration yields more than 1000 records, the
expander ignores the records entirely and behaves exactly like the
no-DNS path on the seed alone: the seed if the filter confirms it,
the empty list otherwise. -/
theorem c8_wildcard_fallback (resolve : String → List Nat) (domain : String)
    (ranges : List String) (records records2 : List DnsRecord)
    (h : 1000 < records.length) :
    (MaxCDN.recon_target resolve domain ranges false records =
      MaxCDN.recon_target resolve domain ranges true records2) ∧
    (MaxCDN.get_maxcdn_domain resolve domain ranges = .ok true →
      MaxCDN.recon_target resolve domain ranges false records = .ok [domain]) ∧
    (MaxCDN.get_maxcdn_domain resolve domain ranges = .ok false →
      MaxCDN.recon_target resolve domain ranges false records = .ok []) ∧
    (Fastly.recon_target resolve domain ranges false records =
      Fastly.recon_target resolve domain ranges true records2) := by
  have key : ∀ es, cdnReconTarget es resolve domain ranges false records =
      cdnReconTarget es resolve domain ranges true records2 := by
    intro es
    simp [cdnReconTarget, h]
  refine ⟨key _, ?_, ?_, key _⟩
  · intro heq
    rw [MaxCDN.get_maxcdn_domain] at heq
    simp [MaxCDN.recon_target, cdnReconTarget, h, heq]
  · intro heq
    rw [MaxCDN.get_maxcdn_domain] at heq
    simp [MaxCDN.recon_target, cdnReconTarget, h, heq]

/-- Witness for C8 with 1001 enumeration records. -/
theorem c8_witness :
    (1000 < (List.replicate 1001 (DnsRecord.mk none)).length) ∧
    MaxCDN.recon_target (fun _ => [5]) "a.com" ["0.0.0.0/0"] false
        (List.replicate 1001 (DnsRecord.mk none)) =
      MaxCDN.recon_target (fun _ => [5]) "a.com" ["0.0.0.0/0"] true [] :=
  ⟨by rw [List.length_replicate]; omega,
   (c8_wildcard_fallback (fun _ => [5]) "a.com" ["0.0.0.0/0"]
    (List.replicate 1001 (DnsRecord.mk none)) []
    (by rw [List.length_replicate]; omega)).1⟩

/-- Every domain the url_list loop emits was already accumulated or is
the lowercasing of a record name the filter classified as fronted. -/
theorem cdnBuildUrlList_mem (es : String) (resolve : String → List Nat)
    (ranges : List String) (records : List DnsRecord) :
    ∀ acc out : List String, cdnBuildUrlList es resolve ranges records acc = .ok out →
      ∀ d ∈ out, d ∈ acc ∨
        ∃ nm, cdnDomainCheck es resolve nm ranges = .ok true ∧ d = pyLower nm := by
  induction records with
  | nil =>
    intro acc out h d hd
    simp only [cdnBuildUrlList, Except.ok.injEq] at h
    subst h
    exact Or.inl hd
  | cons record rest ih =>
    intro acc out h d hd
    simp only [cdnBuildUrlList] at h
    cases hn : record.name with
    | none =>
      rw [hn] at h
      exact ih acc out h d hd
    | some nm =>
      rw [hn] at h
      cases hbe : (nm == "") with
      | true =>
        simp only [hbe, if_true] at h
        exact ih acc out h d hd
      | false =>
        cases hba : acc.any (fun u => u == nm) with
        | true =>
          simp only [hbe, hba, Bool.false_eq_true, if_false, if_true] at h
          exact ih acc out h d hd
        | false =>
          simp only [hbe, hba, Bool.false_eq_true, if_false] at h
          cases hc : cdnDomainCheck es resolve nm ranges with
          | error e => rw [hc] at h; cases h
          | ok b =>
            rw [hc] at h
            cases b with
            | false => exact ih acc out h d hd
            | true =>
              rcases ih (acc ++ [pyLower nm]) out h d hd with hin | hex
              · rcases List.mem_append.mp hin with h1 | h2
                · exact Or.inl h1
                · have hdl : d = pyLower nm := by simpa using h2
                  exact Or.inr ⟨nm, hc, hdl⟩
              · exact Or.inr hex

/-- Every domain the expander returns comes from a name the filter
classified as fronted: the name itself on the seed-only paths, its
lowercasing on the enumeration path. -/
theorem cdnReconTarget_mem (es : String) (resolve : String → List Nat)
    (domain : String) (ranges : List String) (no_dns : Bool)
    (records : List DnsRecord) (out : List String)
    (h : cdnReconTarget es resolve domain ranges no_dns records = .ok out) :
    ∀ d ∈ out, ∃ nm, cdnDomainCheck es resolve nm ranges = .ok true ∧
      (d = nm ∨ d = pyLower nm) := by
  intro d hd
  have seedCase : ∀ b, cdnDomainCheck es resolve domain ranges = .ok b →
      out = (if b then [domain] else []) →
      ∃ nm, cdnDomainCheck es resolve nm ranges = .ok true ∧ (d = nm ∨ d = pyLower nm) := by
    intro b hc hout
    cases b with
    | false => subst hout; cases hd
    | true =>
      subst hout
      rcases List.mem_singleton.mp hd with rfl
      exact ⟨d, hc, Or.inl rfl⟩
  cases no_dns with
  | true =>
    simp only [cdnReconTarget, if_true] at h
    cases hc : cdnDomainCheck es resolve domain ranges with
    | error e => rw [hc] at h; cases h
    | ok b =>
      rw [hc] at h
      exact seedCase b hc (by injection h with h2; exact h2.symm)
  | false =>
    by_cases h1000 : 1000 < records.length
    · simp only [cdnReconTarget, Bool.false_eq_true, if_false, h1000, if_true] at h
      cases hc : cdnDomainCheck es resolve domain ranges with
      | error e => rw [hc] at h; cases h
      | ok b =>
        rw [hc] at h
        exact seedCase b hc (by injection h with h2; exact h2.symm)
    · simp only [cdnReconTarget, Bool.false_eq_true, if_false, h1000] at h
      rcases cdnBuildUrlList_mem es resolve ranges records [] out h d hd with hin | ⟨nm, hc, hdl⟩
      · cases hin
      · exact ⟨nm, hc, Or.inr hdl⟩

/-- Claim C4 corrected: every domain the probe flags comes out of the
expander, and is therefore a name the filter classified as fronted or
the lowercasing of one; the probed (lowercased) string itself need not
have been classified. -/
theorem c4_amended_vulnerable_from_fronted_name :
    (∀ resolve domain ranges no_dns records resp out d,
      MaxCDN.recon_target resolve domain ranges no_dns records = .ok out →
      d ∈ MaxCDN.find_maxcdn_issues resp out →
      ∃ nm, MaxCDN.get_maxcdn_domain resolve nm ranges = .ok true ∧
        (d = nm ∨ d = pyLower nm)) ∧
    (∀ resolve domain ranges no_dns records resp out d,
      Fastly.recon_target resolve domain ranges no_dns records = .ok out →
      d ∈ Fastly.find_fastly_issues resp out →
      ∃ nm, Fastly.get_fastly_domain resolve nm ranges = .ok true ∧
        (d = nm ∨ d = pyLower nm)) := by
  constructor
  · intro resolve domain ranges no_dns records resp out d h hd
    have hd2 : d ∈ out := by
      rw [MaxCDN.find_maxcdn_issues, findIssuesLoop_eq_filter, List.nil_append] at hd
      exact (List.mem_filter.mp hd).1
    exact cdnReconTarget_mem _ resolve domain ranges no_dns records out h d hd2
  · intro resolve domain ranges no_dns records resp out d h hd
    have hd2 : d ∈ out := by
      rw [Fastly.find_fastly_issues, findIssuesLoop_eq_filter, List.nil_append] at hd
      exact (List.mem_filter.mp hd).1
    exact cdnReconTarget_mem _ resolve domain ranges no_dns records out h d hd2

/-- Counterexample to C4 as stated: the enumeration returns the name
"a.NetDNA-CDN.com"; the case-sensitive suffix check misses it, the
resolver places it in range, and the pipeline probes and flags its
lowercasing "a.netdna-cdn.com" — a domain the filter itself rejects
through the edge-suffix exclusion. -/
theorem c4_counterexample :
    MaxCDN.recon_target (fun _ => [5]) "seed.example.com" ["0.0.0.0/0"] false
        [DnsRecord.mk (some "a.NetDNA-CDN.com")] = .ok ["a.netdna-cdn.com"] ∧
    MaxCDN.find_maxcdn_issues (fun _ => HttpResult.success "StackPath")
        ["a.netdna-cdn.com"] = ["a.netdna-cdn.com"] ∧
    MaxCDN.get_maxcdn_domain (fun _ => [5]) "a.netdna-cdn.com" ["0.0.0.0/0"] = .ok false := by
  refine ⟨by decide, by decide, by decide⟩

/-- Witness for the corrected C4 on a concrete no-DNS run. -/
theorem c4_witness :
    ∃ nm, MaxCDN.get_maxcdn_domain (fun _ => [5]) nm ["0.0.0.0/0"] = .ok true ∧
      ("a.com" = nm ∨ "a.com" = pyLower nm) :=
  c4_amended_vulnerable_from_fronted_name.1 (fun _ => [5]) "a.com" ["0.0.0.0/0"] true []
    (fun _ => HttpResult.success "StackPath") ["a.com"] "a.com" (by decide) (by decide)

/-- The set model never emits an element it has already seen. -/
theorem pySetAux_not_mem_seen :
    ∀ (l seen : List String) (x : String), x ∈ pySetAux l seen → x ∉ seen := by
  intro l
  induction l with
  | nil => intro seen x hx; cases hx
  | cons a rest ih =>
    intro seen x hx
    simp only [pySetAux] at hx
    cases hb : seen.any (fun y => y == a) with
    | true =>
      rw [hb] at hx
      simp only [if_true] at hx
      exact ih seen x hx
    | false =>
      rw [hb] at hx
      simp only [Bool.false_eq_true, if_false] at hx
      rcases List.mem_cons.mp hx with rfl | hx2
      · intro hmem
        have : seen.any (fun y => y == x) = true :=
          List.any_eq_true.mpr ⟨x, hmem, by simp⟩
        rw [this] at hb; cases hb
      · intro hmem
        exact ih (a :: seen) x hx2 (List.mem_cons_of_mem a hmem)

/-- The set model emits every distinct string at most once. -/
theorem pySetAux_nodup : ∀ (l seen : List String), (pySetAux l seen).Nodup := by
  intro l
  induction l with
  | nil => intro seen; simp [pySetAux]
  | cons a rest ih =>
    intro seen
    simp only [pySetAux]
    cases hb : seen.any (fun y => y == a) with
    | true => simpa using ih seen
    | false =>
      simp only [Bool.false_eq_true, if_false]
      refine List.nodup_cons.mpr ⟨?_, ih (a :: seen)⟩
      intro hmem
      exact pySetAux_not_mem_seen rest (a :: seen) a hmem (List.mem_cons_self a seen)

/-- The set model only emits elements of its input. -/
theorem pySetAux_subset :
    ∀ (l seen : List String) (x : String), x ∈ pySetAux l seen → x ∈ l := by
  intro l
  induction l with
  | nil => intro seen x hx; cases hx
  | cons a rest ih =>
    intro seen x hx
    simp only [pySetAux] at hx
    cases hb : seen.any (fun y => y == a) with
    | true =>
      rw [hb] at hx
      simp only [if_true] at hx
      exact List.mem_cons_of_mem a (ih seen x hx)
    | false =>
      rw [hb] at hx
      simp only [Bool.false_eq_true, if_false] at hx
      rcases List.mem_cons.mp hx with rfl | hx2
      · exact List.mem_cons_self x rest
      · exact List.mem_cons_of_mem a (ih (a :: seen) x hx2)

/-- Claim C9 corrected: every processed domain is the lowercasing of some
input target, and deduplication is keyed on the exact pre-lowercasing
string: an already-lowercase target list is processed without
duplicates, and on the enumeration path every emitted domain is a
lowercased record name; but lowercasing happens after the exact-string
deduplication, so inputs differing only in case stay distinct. -/
theorem c9_amended_lowercase_exact_dedup :
    (∀ targets : List String, ∀ d ∈ processTargets targets,
      ∃ t ∈ targets, d = pyLower t) ∧
    (∀ targets : List String, (∀ t ∈ targets, pyLower t = t) →
      (processTargets targets).Nodup) ∧
    (∀ es resolve ranges records out,
      cdnBuildUrlList es resolve ranges records [] = .ok out →
      ∀ d ∈ out, ∃ nm, d = pyLower nm) := by
  refine ⟨?_, ?_, ?_⟩
  · intro targets d hd
    rcases List.mem_map.mp hd with ⟨t, ht, rfl⟩
    exact ⟨t, pySetAux_subset targets [] t ht, rfl⟩
  · intro targets hfix
    rw [processTargets]
    have hmap : (pySetAux targets []).map pyLower = (pySetAux targets []).map id := by
      apply List.map_congr_left
      intro t ht
      exact hfix t (pySetAux_subset targets [] t ht)
    rw [hmap, List.map_id]
    exact pySetAux_nodup targets []
  · intro es resolve ranges records out h d hd
    rcases cdnBuildUrlList_mem es resolve ranges records [] out h d hd with hin | ⟨nm, _, hdl⟩
    · cases hin
    · exact ⟨nm, hdl⟩

/-- Counterexample to C9 as stated: the targets "Foo.com" and "foo.com"
differ only in case, survive the exact-string deduplication as two
entries, and both lowercase to "foo.com", so the processed list holds a
duplicate. -/
theorem c9_counterexample :
    processTargets ["Foo.com", "foo.com"] = ["foo.com", "foo.com"] ∧
    ¬ (processTargets ["Foo.com", "foo.com"]).Nodup := by
  refine ⟨by decide, by decide⟩

/-- Witness for the corrected C9 on concrete target lists. -/
theorem c9_witness :
    (∃ t ∈ ["Foo.com"], "foo.com" = pyLower t) ∧
    ((∀ t ∈ ["a.com", "b.com"], pyLower t = t) ∧
      (processTargets ["a.com", "b.com"]).Nodup) :=
  ⟨c9_amended_lowercase_exact_dedup.1 ["Foo.com"] "foo.com" (by decide),
   by decide, c9_amended_lowercase_exact_dedup.2.1 ["a.com", "b.com"] (by decide)⟩

/-- Appending the elements of a payload to an accumulator one at a time
reproduces the payload after the accumulator. -/
theorem foldl_append_singleton (l : List String) :
    ∀ acc : List String, l.foldl (fun r item => r ++ [item]) acc = acc ++ l := by
  induction l with
  | nil => intro acc; simp
  | cons a rest ih => intro acc; simp [List.foldl_cons, ih]

/-- Claim C6 corrected: a successful range fetch returns exactly the
parsed payload entries, in order and with no emptiness check; an empty
payload yields an empty RangeSet returned normally, not a fatal error. -/
theorem c6_amended_ranges_verbatim (payload addresses : List String) :
    MaxCDN.get_maxcdn_ranges payload = payload ∧
    Fastly.get_fastly_ranges addresses = addresses := by
  constructor
  · rw [MaxCDN.get_maxcdn_ranges, foldl_append_singleton, List.nil_append]
  · rw [Fastly.get_fastly_ranges, foldl_append_singleton, List.nil_append]

/-- Counterexample to C6 as stated: both fetchers accept an empty parsed
payload and return the empty range list successfully instead of
aborting. -/
theorem c6_counterexample :
    MaxCDN.get_maxcdn_ranges [] = [] ∧ Fastly.get_fastly_ranges [] = [] :=
  ⟨rfl, rfl⟩

